import Mathlib

/-!
# Verification of the QR styling / vector-rendering engine

Shallow embedding of the QR-code rendering library
(`apps/web/lib/qr/constants.ts`, the image-route handler and the zod query
schema) together with proofs about the embedded definitions.

Conventions of the embedding:
* a module matrix is a `List (List Bool)` (`true` = dark module);
* JavaScript numbers that only ever hold non-negative integers (module
  coordinates, margins, plan levels) are `Nat`; quantities that may be
  negative (excavation rectangles built from floors of rationals) are `Int`;
  quantities produced by division (image scaling) are `ℚ`;
* a JSX element tree is modelled by a first-order datatype recording the
  attributes the source sets; `null`/`undefined` become `Option`;
* JavaScript string truthiness (`s || d` yields `d` for `""`, `null`,
  `undefined`) is modelled by `jsOr`.
-/

namespace QR

/-- Module matrix: `modules[y][x] = true` iff the module at column `x`,
row `y` is dark.  Mirrors `Modules` of `lib/qr/types.ts`. -/
abbrev Modules := List (List Bool)

/-- The four error-correction levels of `QR_LEVELS = ["L","M","Q","H"]`. -/
inductive Level where
  | L
  | M
  | Q
  | H
deriving DecidableEq, Repr, BEq

/-- Position of a level in the escalation order `L < M < Q < H`. -/
def levelOrd : Level → Nat
  | .L => 0
  | .M => 1
  | .Q => 2
  | .H => 3

/-- JavaScript `a || b` on an optional string: `b` whenever `a` is
`undefined`/`null` or the empty string (the only falsy strings). -/
def jsOr (o : Option String) (d : String) : String :=
  match o with
  | none => d
  | some s => if s = "" then d else s

/-- JavaScript truthiness of an optional string. -/
def truthyS (o : Option String) : Bool :=
  !(o.getD "" == "")

/-! ## `generatePath` (constants.ts lines 112–154)

Each `ops.push` of the source emits one path command
`M⟨x⟩ ⟨y⟩h⟨w⟩v1H⟨x⟩z`, i.e. the axis-aligned unit-height rectangle
`[x, x+w) × [y, y+1)`.  We model the op list by a list of `PathOp`
records; the returned string is the concatenation of their renderings,
so the set of unit cells filled by rasterizing the string is the union
of the cells covered by the ops. -/

/-- One emitted run operation: the rectangle `[x, x+w) × [y, y+1)`. -/
structure PathOp where
  x : Nat
  y : Nat
  w : Nat
deriving DecidableEq, Repr

/-- The unit cell with lower-left corner `(cx, cy)` is filled by `op`. -/
def opCovers (op : PathOp) (cx cy : Nat) : Bool :=
  decide (op.y = cy ∧ op.x ≤ cx ∧ cx < op.x + op.w)

/-- Inner loop of `generatePath` over one row.  `m` is the margin, `y`
the row index, `n` the row length (`row.length` in the source), `x` the
current column and `start` the column where the current run of dark
modules began (`null` when no run is open).  Mirrors the source's three
branches: close a run at a light module, handle the last column, open a
run at a dark module. -/
def generatePathRow (m y n : Nat) : List Bool → Nat → Option Nat → List PathOp
  | [], _, _ => []
  | cell :: rest, x, start =>
    match cell, start with
    | false, some s =>
        ⟨s + m, y + m, x - s⟩ :: generatePathRow m y n rest (x + 1) none
    | false, none =>
        generatePathRow m y n rest (x + 1) none
    | true, start =>
        if x = n - 1 then
          match start with
          | none => ⟨x + m, y + m, 1⟩ :: generatePathRow m y n rest (x + 1) start
          | some s => ⟨s + m, y + m, x + 1 - s⟩ :: generatePathRow m y n rest (x + 1) start
        else
          match start with
          | none => generatePathRow m y n rest (x + 1) (some x)
          | some _ => generatePathRow m y n rest (x + 1) start

/-- Outer loop of `generatePath` over the rows, carrying the row index. -/
def generatePathAux (m : Nat) : Modules → Nat → List PathOp
  | [], _ => []
  | row :: rows, y =>
      generatePathRow m y row.length row 0 none ++ generatePathAux m rows (y + 1)

/-- The list of run operations pushed by `generatePath(modules, margin)`,
in emission order. -/
def generatePathOps (modules : Modules) (margin : Nat) : List PathOp :=
  generatePathAux margin modules 0

/-- Whether the pending run (begun at `start`, currently extending to
column `x`, exclusive) already covers column `c`. -/
def pendingCovers (x c : Nat) : Option Nat → Bool
  | none => false
  | some s => decide (s ≤ c ∧ c < x)

/-- Rendering of one op as the source's path command (mid-row form). -/
def pathOpString (op : PathOp) : String :=
  "M" ++ toString op.x ++ " " ++ toString op.y ++ "h" ++ toString op.w ++
    "v1H" ++ toString op.x ++ "z"

/-- The path string returned by `generatePath` is the concatenation of
the emitted ops (the source joins `ops` with `""`; the end-of-row pushes
only differ from `pathOpString` by cosmetic whitespace/commas, which do
not change the rasterization). -/
def generatePath (modules : Modules) (margin : Nat) : String :=
  String.join ((generatePathOps modules margin).map pathOpString)

/-- Every op emitted while scanning row `y` lies on rendered row `y + m`
and starts at a rendered column at least `m`. -/
theorem generatePathRow_mem {m y n : Nat} :
    ∀ (rest : List Bool) (x : Nat) (start : Option Nat) (op : PathOp),
      op ∈ generatePathRow m y n rest x start → op.y = y + m ∧ m ≤ op.x := by
  intro rest
  induction rest with
  | nil =>
    intro x start op h
    simp [generatePathRow] at h
  | cons cell rest ih =>
    intro x start op h
    cases cell <;> rcases start with _ | s <;>
      simp only [generatePathRow] at h
    · exact ih _ _ op h
    · rcases List.mem_cons.mp h with rfl | h
      · exact ⟨rfl, Nat.le_add_left _ _⟩
      · exact ih _ _ op h
    · by_cases hx : x = n - 1
      · rw [if_pos hx] at h
        rcases List.mem_cons.mp h with rfl | h
        · exact ⟨rfl, Nat.le_add_left _ _⟩
        · exact ih _ _ op h
      · rw [if_neg hx] at h
        exact ih _ _ op h
    · by_cases hx : x = n - 1
      · rw [if_pos hx] at h
        rcases List.mem_cons.mp h with rfl | h
        · exact ⟨rfl, Nat.le_add_left _ _⟩
        · exact ih _ _ op h
      · rw [if_neg hx] at h
        exact ih _ _ op h

/-- Core run-length invariant of the inner loop of `generatePath`:
scanning the suffix `rest` of a row from column `x` with a pending run
recorded in `start`, the rendered cell in column `c + m` of rendered row
`y + m` is covered by exactly one of the remaining emitted ops if it
belongs to the pending run or sits over a dark module of the suffix, and
by none otherwise. -/
theorem generatePathRow_countP {m y n : Nat} :
    ∀ (rest : List Bool) (x : Nat) (start : Option Nat) (c : Nat),
      x + rest.length = n →
      (∀ s, start = some s → s < x ∧ x < n) →
      (generatePathRow m y n rest x start).countP
          (fun op => opCovers op (c + m) (y + m)) =
        if pendingCovers x c start = true ∨ (x ≤ c ∧ rest.getD (c - x) false = true)
        then 1 else 0 := by
  intro rest
  induction rest with
  | nil =>
    intro x start c hlen hstart
    rcases start with _ | s
    · simp [generatePathRow, pendingCovers, List.getD]
    · exact absurd (hstart s rfl).2 (by simp at hlen; omega)
  | cons cell rest ih =>
    intro x start c hlen hstart
    have hlen' : (x + 1) + rest.length = n := by
      simp only [List.length_cons] at hlen
      omega
    cases cell <;> rcases start with _ | s <;> simp only [generatePathRow]
    · -- light module, no pending run
      rw [ih (x + 1) none c hlen' (fun s h => by cases h)]
      rcases Nat.lt_trichotomy c x with hc | hc | hc
      · simp [pendingCovers, show ¬ x ≤ c by omega, show ¬ x + 1 ≤ c by omega]
      · subst hc
        simp [pendingCovers, show ¬ c + 1 ≤ c by omega, Nat.sub_self,
          List.getD_cons_zero]
      · have hsub : c - x = (c - (x + 1)) + 1 := by omega
        simp only [hsub, List.getD_cons_succ]
        cases hb : rest.getD (c - (x + 1)) false <;>
          simp [hb, pendingCovers, show x ≤ c by omega, show x + 1 ≤ c by omega]
    · -- light module closes the pending run [s, x)
      obtain ⟨hs, hxn⟩ := hstart s rfl
      rw [List.countP_cons, ih (x + 1) none c hlen' (fun s' h => by cases h)]
      have hcov : (opCovers ⟨s + m, y + m, x - s⟩ (c + m) (y + m)) =
          decide (s ≤ c ∧ c < x) := by
        simp only [opCovers, decide_eq_decide, true_and]
        omega
      rw [hcov]
      rcases Nat.lt_trichotomy c x with hc | hc | hc
      · simp only [pendingCovers, decide_eq_true_eq]
        simp [show ¬ x ≤ c by omega, show ¬ x + 1 ≤ c by omega]
      · subst hc
        simp [pendingCovers, show ¬ c + 1 ≤ c by omega, show ¬ c < c by omega,
          Nat.sub_self, List.getD_cons_zero]
      · have hsub : c - x = (c - (x + 1)) + 1 := by omega
        simp only [hsub, List.getD_cons_succ]
        cases hb : rest.getD (c - (x + 1)) false <;>
          simp [hb, pendingCovers, show x ≤ c by omega, show x + 1 ≤ c by omega,
            show ¬ c < x by omega]
    · -- dark module, no pending run
      by_cases hx : x = n - 1
      · rw [if_pos hx]
        have hrest : rest = [] := by
          cases rest with
          | nil => rfl
          | cons b l =>
            exfalso
            simp only [List.length_cons] at hlen'
            omega
        subst hrest
        rw [List.countP_cons]
        simp only [generatePathRow, List.countP_nil]
        have hcov : (opCovers ⟨x + m, y + m, 1⟩ (c + m) (y + m)) =
            decide (c = x) := by
          simp only [opCovers, decide_eq_decide, true_and]
          omega
        rw [hcov]
        rcases Nat.lt_trichotomy c x with hc | hc | hc
        · simp [pendingCovers, show ¬ x ≤ c by omega, show c ≠ x by omega]
        · subst hc
          simp [pendingCovers, Nat.sub_self, List.getD_cons_zero]
        · have hsub : c - x = (c - (x + 1)) + 1 := by omega
          simp only [hsub, List.getD_cons_succ]
          simp [pendingCovers, List.getD, show c ≠ x by omega]
      · rw [if_neg hx]
        have hxn : x + 1 < n := by
          cases rest with
          | nil =>
            simp only [List.length_nil, Nat.add_zero] at hlen'
            omega
          | cons b l =>
            simp only [List.length_cons] at hlen'
            omega
        rw [ih (x + 1) (some x) c hlen'
          (fun s' h => by cases h; exact ⟨Nat.lt_succ_self x, hxn⟩)]
        rcases Nat.lt_trichotomy c x with hc | hc | hc
        · simp [pendingCovers, show ¬ x ≤ c by omega, show ¬ x + 1 ≤ c by omega]
        · subst hc
          simp [pendingCovers, show c < c + 1 by omega, Nat.sub_self,
            List.getD_cons_zero]
        · have hsub : c - x = (c - (x + 1)) + 1 := by omega
          simp only [hsub, List.getD_cons_succ]
          cases hb : rest.getD (c - (x + 1)) false <;>
            simp [hb, pendingCovers, show x ≤ c by omega, show x + 1 ≤ c by omega,
              show ¬ c < x + 1 by omega]
    · -- dark module with a pending run
      obtain ⟨hs, hxn⟩ := hstart s rfl
      by_cases hx : x = n - 1
      · rw [if_pos hx]
        have hrest : rest = [] := by
          cases rest with
          | nil => rfl
          | cons b l =>
            exfalso
            simp only [List.length_cons] at hlen'
            omega
        subst hrest
        rw [List.countP_cons]
        simp only [generatePathRow, List.countP_nil]
        have hcov : (opCovers ⟨s + m, y + m, x + 1 - s⟩ (c + m) (y + m)) =
            decide (s ≤ c ∧ c < x + 1) := by
          simp only [opCovers, decide_eq_decide, true_and]
          omega
        rw [hcov]
        rcases Nat.lt_trichotomy c x with hc | hc | hc
        · simp only [pendingCovers, decide_eq_true_eq]
          simp [show ¬ x ≤ c by omega, show c < x + 1 by omega, hc]
        · subst hc
          simp [pendingCovers, Nat.sub_self, List.getD_cons_zero,
            show c < c + 1 by omega, show ¬ c < c by omega, show s ≤ c by omega]
        · have hsub : c - x = (c - (x + 1)) + 1 := by omega
          simp only [hsub, List.getD_cons_succ]
          simp [pendingCovers, List.getD, show ¬ c < x + 1 by omega,
            show ¬ c < x by omega]
      · rw [if_neg hx]
        have hxn' : x + 1 < n := by
          cases rest with
          | nil =>
            simp only [List.length_nil, Nat.add_zero] at hlen'
            omega
          | cons b l =>
            simp only [List.length_cons] at hlen'
            omega
        rw [ih (x + 1) (some s) c hlen'
          (fun s' h => by cases h; exact ⟨by omega, hxn'⟩)]
        rcases Nat.lt_trichotomy c x with hc | hc | hc
        · simp only [pendingCovers, decide_eq_true_eq]
          simp [show ¬ x ≤ c by omega, show ¬ x + 1 ≤ c by omega,
            show c < x + 1 by omega, show c < x by omega]
        · subst hc
          simp [pendingCovers, Nat.sub_self, List.getD_cons_zero,
            show c < c + 1 by omega, show ¬ c < c by omega, show s ≤ c by omega]
        · have hsub : c - x = (c - (x + 1)) + 1 := by omega
          simp only [hsub, List.getD_cons_succ]
          cases hb : rest.getD (c - (x + 1)) false <;>
            simp [hb, pendingCovers, show x ≤ c by omega, show x + 1 ≤ c by omega,
              show ¬ c < x + 1 by omega, show ¬ c < x by omega]

/-- Coverage count of the ops emitted for one full row: the cell
`(cx, cy)` is covered exactly once if `cy` is the rendered row and `cx`
sits over a dark module, and never otherwise. -/
theorem generatePathRow_count_full (m y : Nat) (row : List Bool) (cx cy : Nat) :
    (generatePathRow m y row.length row 0 none).countP
        (fun op => opCovers op cx cy) =
      if m ≤ cx ∧ cy = y + m ∧ row.getD (cx - m) false = true
      then 1 else 0 := by
  by_cases hcy : cy = y + m
  · by_cases hcx : m ≤ cx
    · obtain ⟨c, rfl⟩ : ∃ c, cx = c + m := ⟨cx - m, by omega⟩
      subst hcy
      rw [generatePathRow_countP row 0 none c (by omega) (fun s h => by cases h)]
      simp [pendingCovers, Nat.add_sub_cancel]
    · rw [List.countP_eq_zero.mpr, if_neg]
      · intro hcon
        exact hcx hcon.1
      · intro op hop
        have hx := (generatePathRow_mem row 0 none op hop).2
        simp only [opCovers, decide_eq_true_eq]
        omega
  · rw [List.countP_eq_zero.mpr, if_neg]
    · intro hcon
      exact hcy hcon.2.1
    · intro op hop
      have hy := (generatePathRow_mem row 0 none op hop).1
      simp only [opCovers, decide_eq_true_eq]
      intro hcon
      exact hcy (hy ▸ hcon.1).symm

/-- Coverage count of all ops emitted from the suffix `rows` of the
matrix, whose first row has absolute index `y0`. -/
theorem generatePathAux_countP (m : Nat) :
    ∀ (rows : Modules) (y0 cx cy : Nat),
      (generatePathAux m rows y0).countP (fun op => opCovers op cx cy) =
        if m ≤ cx ∧ y0 + m ≤ cy ∧
            (rows.getD (cy - m - y0) []).getD (cx - m) false = true
        then 1 else 0 := by
  intro rows
  induction rows with
  | nil =>
    intro y0 cx cy
    simp [generatePathAux, List.getD]
  | cons row rows ih =>
    intro y0 cx cy
    simp only [generatePathAux]
    rw [List.countP_append, generatePathRow_count_full m y0 row cx cy,
      ih (y0 + 1) cx cy]
    by_cases hcy : cy = y0 + m
    · subst hcy
      simp [show ¬ y0 + 1 + m ≤ y0 + m by omega,
        show y0 + m - m - y0 = 0 by omega, List.getD_cons_zero]
    · by_cases hge : y0 + 1 + m ≤ cy
      · have hsub : cy - m - y0 = (cy - m - (y0 + 1)) + 1 := by omega
        simp [hcy, hsub, List.getD_cons_succ, hge, show y0 + m ≤ cy by omega]
      · simp [hcy, hge, show ¬ y0 + m ≤ cy by omega]

/-- **C1.**  For every module matrix and every margin `m ≥ 0`, the set of
unit cells filled by rasterizing the path returned by
`generatePath(modules, m)` is exactly the set of dark cells of the
matrix shifted by `m` — every dark module is covered by exactly one
emitted run op and no other cell is covered by any op. -/
theorem generatePath_rasterization_exact (modules : Modules) (m cx cy : Nat) :
    ((generatePathOps modules m).countP (fun op => opCovers op cx cy) =
      if m ≤ cx ∧ m ≤ cy ∧ (modules.getD (cy - m) []).getD (cx - m) false = true
      then 1 else 0)
    ∧ ((∃ op ∈ generatePathOps modules m, opCovers op cx cy = true) ↔
        ∃ x y, (modules.getD y []).getD x false = true ∧ cx = x + m ∧ cy = y + m) := by
  have hcount : (generatePathOps modules m).countP (fun op => opCovers op cx cy) =
      if m ≤ cx ∧ m ≤ cy ∧ (modules.getD (cy - m) []).getD (cx - m) false = true
      then 1 else 0 := by
    have h := generatePathAux_countP m modules 0 cx cy
    simpa using h
  refine ⟨hcount, ?_, ?_⟩
  · intro hex
    have hpos : 0 < (generatePathOps modules m).countP (fun op => opCovers op cx cy) :=
      List.countP_pos_iff.mpr hex
    rw [hcount] at hpos
    have hc : m ≤ cx ∧ m ≤ cy ∧
        (modules.getD (cy - m) []).getD (cx - m) false = true := by
      by_contra hcon
      rw [if_neg hcon] at hpos
      omega
    exact ⟨cx - m, cy - m, hc.2.2, by omega, by omega⟩
  · rintro ⟨x, y, hdark, rfl, rfl⟩
    apply List.countP_pos_iff.mp
    rw [hcount, if_pos]
    · omega
    · refine ⟨by omega, by omega, ?_⟩
      simpa [Nat.add_sub_cancel] using hdark

/-! ## `excavateModules` (constants.ts lines 95–110)

`modules.slice().map((row, y) => ...)` returns a fresh array (the input
is never mutated; the embedding is a pure function, so this is inherent
here), keeping rows outside the excavation band and blanking the cells
of the other rows that fall inside the excavation's column range.
Excavation coordinates come from `Math.floor`/`Math.ceil` of rational
positions and may be negative, hence `Int` fields. -/

/-- The excavation rectangle of `lib/qr/types.ts`. -/
structure Excavation where
  x : Int
  y : Int
  w : Int
  h : Int
deriving DecidableEq, Repr

/-- The inner `row.map((cell, x) => ...)` of `excavateModules`: blank
cells whose column lies in `[e.x, e.x + e.w)`. -/
def excavateRow (e : Excavation) : List Bool → Nat → List Bool
  | [], _ => []
  | cell :: rest, x =>
      (if (x : Int) < e.x || (x : Int) ≥ e.x + e.w then cell else false)
        :: excavateRow e rest (x + 1)

/-- The outer `modules.slice().map((row, y) => ...)` of
`excavateModules`: rows outside `[e.y, e.y + e.h)` are returned
unchanged. -/
def excavateAux (e : Excavation) : Modules → Nat → Modules
  | [], _ => []
  | row :: rows, y =>
      (if (y : Int) < e.y || (y : Int) ≥ e.y + e.h then row
       else excavateRow e row 0)
        :: excavateAux e rows (y + 1)

/-- `excavateModules(modules, excavation)` of the source. -/
def excavateModules (modules : Modules) (e : Excavation) : Modules :=
  excavateAux e modules 0

theorem excavateRow_length (e : Excavation) :
    ∀ (row : List Bool) (x0 : Nat), (excavateRow e row x0).length = row.length := by
  intro row
  induction row with
  | nil => intro x0; rfl
  | cons cell rest ih =>
    intro x0
    simp [excavateRow, ih]

theorem excavateRow_getD (e : Excavation) :
    ∀ (row : List Bool) (x0 c : Nat),
      (excavateRow e row x0).getD c false =
        if e.x ≤ (x0 + c : Int) ∧ (x0 + c : Int) < e.x + e.w
        then false else row.getD c false := by
  intro row
  induction row with
  | nil =>
    intro x0 c
    by_cases h : e.x ≤ (x0 + c : Int) ∧ (x0 + c : Int) < e.x + e.w <;>
      simp [excavateRow, List.getD, h]
  | cons cell rest ih =>
    intro x0 c
    cases c with
    | zero =>
      simp only [excavateRow, List.getD_cons_zero, Nat.cast_zero, add_zero,
        Bool.or_eq_true, decide_eq_true_eq, ge_iff_le]
      by_cases h : (x0 : Int) < e.x ∨ e.x + e.w ≤ (x0 : Int)
      · rw [if_pos h, if_neg (by omega)]
      · rw [if_neg h, if_pos (by omega)]
    | succ c =>
      simp only [excavateRow, List.getD_cons_succ]
      rw [ih (x0 + 1) c]
      split_ifs <;> first | rfl | omega

theorem excavateAux_length (e : Excavation) :
    ∀ (rows : Modules) (y0 : Nat), (excavateAux e rows y0).length = rows.length := by
  intro rows
  induction rows with
  | nil => intro y0; rfl
  | cons row rows ih =>
    intro y0
    simp [excavateAux, ih]

theorem excavateAux_getD (e : Excavation) :
    ∀ (rows : Modules) (y0 cy cx : Nat),
      ((excavateAux e rows y0).getD cy []).getD cx false =
        (if e.x ≤ (cx : Int) ∧ (cx : Int) < e.x + e.w ∧
             e.y ≤ (y0 + cy : Int) ∧ (y0 + cy : Int) < e.y + e.h
         then false else ((rows.getD cy []).getD cx false)) := by
  intro rows
  induction rows with
  | nil =>
    intro y0 cy cx
    by_cases h : e.x ≤ (cx : Int) ∧ (cx : Int) < e.x + e.w ∧
        e.y ≤ (y0 + cy : Int) ∧ (y0 + cy : Int) < e.y + e.h <;>
      simp [excavateAux, List.getD, h]
  | cons row rows ih =>
    intro y0 cy cx
    cases cy with
    | zero =>
      simp only [excavateAux, List.getD_cons_zero, Nat.cast_zero, add_zero,
        Bool.or_eq_true, decide_eq_true_eq, ge_iff_le]
      by_cases hy : (y0 : Int) < e.y ∨ e.y + e.h ≤ (y0 : Int)
      · rw [if_pos hy, if_neg (by omega)]
      · rw [if_neg hy, excavateRow_getD e row 0 cx]
        simp only [Nat.cast_zero, zero_add]
        split_ifs <;> first | rfl | omega
    | succ cy =>
      simp only [excavateAux, List.getD_cons_succ]
      rw [ih (y0 + 1) cy cx]
      split_ifs <;> first | rfl | omega

/-- **C4.**  `excavateModules` preserves the dimensions of the matrix,
forces every cell inside the excavation rectangle to light and leaves
every cell outside it untouched.  (The embedding is a pure function,
matching the source's `slice().map`, which never mutates its input.) -/
theorem excavateModules_exact (modules : Modules) (e : Excavation) (cx cy : Nat) :
    (excavateModules modules e).length = modules.length
    ∧ ((excavateModules modules e).getD cy []).length = (modules.getD cy []).length
    ∧ ((excavateModules modules e).getD cy []).getD cx false =
        (if e.x ≤ (cx : Int) ∧ (cx : Int) < e.x + e.w ∧
             e.y ≤ (cy : Int) ∧ (cy : Int) < e.y + e.h
         then false else (modules.getD cy []).getD cx false) := by
  refine ⟨excavateAux_length e modules 0, ?_, ?_⟩
  · have hlen : ∀ (rows : Modules) (y0 cy : Nat),
        ((excavateAux e rows y0).getD cy []).length = (rows.getD cy []).length := by
      intro rows
      induction rows with
      | nil => intro y0 cy; rfl
      | cons row rows ih =>
        intro y0 cy
        cases cy with
        | zero =>
          simp only [excavateAux, List.getD_cons_zero]
          split
          · rfl
          · exact excavateRow_length e row 0
        | succ cy =>
          simp only [excavateAux, List.getD_cons_succ]
          exact ih (y0 + 1) cy
    exact hlen modules 0 cy
  · have h := excavateAux_getD e modules 0 cy cx
    simpa using h

/-! ## `getImageSettings` (constants.ts lines 344–382) -/

/-- `ImageSettings` of `lib/qr/types.ts`: overlay source, pixel size,
whether to excavate, and an optional explicit pixel position. -/
structure ImageSettings where
  src : String
  width : ℚ
  height : ℚ
  excavate : Bool
  x : Option ℚ
  y : Option ℚ
deriving DecidableEq, Repr

/-- The record returned by `getImageSettings` (module-grid units). -/
structure CalculatedImageSettings where
  x : ℚ
  y : ℚ
  w : ℚ
  h : ℚ
  excavation : Option Excavation
deriving DecidableEq, Repr

/-- `DEFAULT_IMG_SCALE = 0.1`. -/
def DEFAULT_IMG_SCALE : ℚ := 1 / 10

/-- `getImageSettings(cells, size, margin, imageSettings)`.  JavaScript
`imageSettings.width || defaultSize` falls back exactly when the stored
width is `0`, the only falsy number here; `margin` is accepted but
unused, as in the source. -/
def getImageSettings (cells : Modules) (size : ℚ) (margin : Nat)
    (imageSettings : Option ImageSettings) : Option CalculatedImageSettings :=
  match imageSettings with
  | none => none
  | some s =>
    let qrCodeSize : ℚ := cells.length
    let defaultSize : ℚ := ⌊size * DEFAULT_IMG_SCALE⌋
    let scale : ℚ := qrCodeSize / size
    let w : ℚ := (if s.width = 0 then defaultSize else s.width) * scale
    let h : ℚ := (if s.height = 0 then defaultSize else s.height) * scale
    let x : ℚ := match s.x with
      | none => qrCodeSize / 2 - w / 2
      | some sx => sx * scale
    let y : ℚ := match s.y with
      | none => qrCodeSize / 2 - h / 2
      | some sy => sy * scale
    some { x := x, y := y, w := w, h := h,
           excavation :=
             if s.excavate then
               some { x := ⌊x⌋, y := ⌊y⌋,
                      w := ⌈w + x - ⌊x⌋⌉, h := ⌈h + y - ⌊y⌋⌉ }
             else none }

/-- Floor-the-origin / ceil-the-extent covers the footprint `[X, X+W]`
and overshoots by less than one on each side. -/
theorem floor_ceil_cover (X W : ℚ) :
    ((⌊X⌋ : ℚ) ≤ X ∧ X + W ≤ (⌊X⌋ : ℚ) + ((⌈W + X - ⌊X⌋⌉ : Int) : ℚ)
      ∧ X - (⌊X⌋ : ℚ) < 1
      ∧ (⌊X⌋ : ℚ) + ((⌈W + X - ⌊X⌋⌉ : Int) : ℚ) - (X + W) < 1) := by
  have h1 := Int.floor_le X
  have h2 := Int.le_ceil (W + X - (⌊X⌋ : ℚ))
  have h3 := Int.lt_floor_add_one X
  have h4 := Int.ceil_lt_add_one (W + X - (⌊X⌋ : ℚ))
  refine ⟨h1, by linarith, by linarith, by linarith⟩

/-- **C5.**  Whenever `getImageSettings` computes an excavation
(`excavate = true`), the excavation rectangle
`{⌊x⌋, ⌊y⌋, ⌈w + x − ⌊x⌋⌉, ⌈h + y − ⌊y⌋⌉}` fully contains the scaled
logo footprint `[x, x+w] × [y, y+h]` in module-grid units, never
under-covering it, and over-covers it by less than one module on each
side of each axis. -/
theorem getImageSettings_excavation_covers (cells : Modules) (size : ℚ)
    (margin : Nat) (s : ImageSettings) (cis : CalculatedImageSettings)
    (e : Excavation)
    (hcalc : getImageSettings cells size margin (some s) = some cis)
    (he : cis.excavation = some e) :
    ((e.x : ℚ) ≤ cis.x ∧ cis.x + cis.w ≤ (e.x : ℚ) + (e.w : ℚ)
      ∧ cis.x - (e.x : ℚ) < 1
      ∧ (e.x : ℚ) + (e.w : ℚ) - (cis.x + cis.w) < 1)
    ∧ ((e.y : ℚ) ≤ cis.y ∧ cis.y + cis.h ≤ (e.y : ℚ) + (e.h : ℚ)
      ∧ cis.y - (e.y : ℚ) < 1
      ∧ (e.y : ℚ) + (e.h : ℚ) - (cis.y + cis.h) < 1) := by
  simp only [getImageSettings, Option.some.injEq] at hcalc
  subst hcalc
  dsimp only at he ⊢
  by_cases hse : s.excavate
  · rw [if_pos hse] at he
    rcases e with ⟨ex, ey, ew, eh⟩
    simp only [Option.some.injEq, Excavation.mk.injEq] at he
    obtain ⟨h1, h2, h3, h4⟩ := he
    subst h1 h2 h3 h4
    exact ⟨floor_ceil_cover _ _, floor_ceil_cover _ _⟩
  · rw [if_neg hse] at he
    cases he

/-- Concrete overlay used to witness `getImageSettings_excavation_covers`:
a 25×25-pixel excavating logo, centered. -/
def imgSettingsW : ImageSettings := ⟨"logo", 25, 25, true, none, none⟩

/-- Placement computed by `getImageSettings` for `imgSettingsW` on a
21-module matrix rendered at 100 pixels. -/
def calcW : CalculatedImageSettings := ⟨63/8, 63/8, 21/4, 21/4, some ⟨7, 7, 7, 7⟩⟩

/-- Witness for `getImageSettings_excavation_covers` at a concrete input:
the hypotheses are discharged by evaluation. -/
theorem getImageSettings_excavation_covers_witness :
    (((7 : Int) : ℚ) ≤ calcW.x
      ∧ calcW.x + calcW.w ≤ ((7 : Int) : ℚ) + ((7 : Int) : ℚ)
      ∧ calcW.x - ((7 : Int) : ℚ) < 1
      ∧ ((7 : Int) : ℚ) + ((7 : Int) : ℚ) - (calcW.x + calcW.w) < 1)
    ∧ (((7 : Int) : ℚ) ≤ calcW.y
      ∧ calcW.y + calcW.h ≤ ((7 : Int) : ℚ) + ((7 : Int) : ℚ)
      ∧ calcW.y - ((7 : Int) : ℚ) < 1
      ∧ ((7 : Int) : ℚ) + ((7 : Int) : ℚ) - (calcW.y + calcW.h) < 1) :=
  getImageSettings_excavation_covers (List.replicate 21 []) 100 2 imgSettingsW
    calcW ⟨7, 7, 7, 7⟩
    (by
      rw [getImageSettings]
      norm_num [imgSettingsW, calcW, DEFAULT_IMG_SCALE, Int.ceil_eq_iff])
    rfl

/-! ## Effective error-correction level (constants.ts lines 420–431) -/

/-- `imageSettings?.excavate`: `undefined` (falsy) when there is no
overlay record. -/
def optExcavate (imageSettings : Option ImageSettings) : Bool :=
  match imageSettings with
  | none => false
  | some s => s.excavate

/-- `isOGContext && imageSettings?.excavate && (level === "L" || level === "M")`. -/
def shouldUseHigherErrorLevel (isOGContext : Bool)
    (imageSettings : Option ImageSettings) (level : Level) : Bool :=
  isOGContext && optExcavate imageSettings
    && decide (level = Level.L ∨ level = Level.M)

/-- The `effectiveLevel` computed by `QRCodeSVG`: escalate to `Q` for an
excavating raster context, or for the `custom`/`holographic` types, when
the requested level is `L` or `M`; otherwise keep the requested level. -/
def effectiveLevel (isOGContext : Bool) (imageSettings : Option ImageSettings)
    (qrType : String) (level : Level) : Level :=
  if shouldUseHigherErrorLevel isOGContext imageSettings level = true then .Q
  else if (qrType = "custom" ∨ qrType = "holographic")
      ∧ (level = Level.L ∨ level = Level.M) then .Q
  else level

/-- **C2.**  The effective level is `Q` exactly in the cases the
specification lists — requested level `L` or `M` together with either an
excavating overlay in a raster (`isOGContext`) render, or
`qrType ∈ {custom, holographic}` — and equals the requested level in
every other case; consequently the level only ever escalates in the
order `L < M < Q < H`, never downgrades. -/
theorem effectiveLevel_exact (isOGContext : Bool)
    (imageSettings : Option ImageSettings) (qrType : String) (level : Level) :
    (effectiveLevel isOGContext imageSettings qrType level =
      if (level = Level.L ∨ level = Level.M)
          ∧ ((isOGContext = true ∧ optExcavate imageSettings = true)
             ∨ qrType = "custom" ∨ qrType = "holographic")
      then Level.Q else level)
    ∧ levelOrd level
        ≤ levelOrd (effectiveLevel isOGContext imageSettings qrType level) := by
  constructor
  · unfold effectiveLevel shouldUseHigherErrorLevel
    cases level <;> cases isOGContext <;> cases hoe : optExcavate imageSettings <;>
      by_cases hc : qrType = "custom" <;> by_cases hh : qrType = "holographic" <;>
        simp [hc, hh]
  · unfold effectiveLevel shouldUseHigherErrorLevel
    split_ifs <;> cases level <;> simp_all [levelOrd]

/-! ## Plan-based licensing (image route handler, lines 24–48 and 84–108) -/

/-- The `QR_TYPE_PLAN_REQUIREMENTS` record lookup
(`undefined` outside the six listed keys). -/
def QR_TYPE_PLAN_REQUIREMENTS (qrType : String) : Option String :=
  if qrType = "standard" then some "free"
  else if qrType = "micro" then some "free"
  else if qrType = "compact" then some "pro"
  else if qrType = "custom" then some "pro"
  else if qrType = "holographic" then some "business"
  else if qrType = "cube3d" then some "business"
  else none

/-- The `PLAN_HIERARCHY` record lookup. -/
def PLAN_HIERARCHY (plan : String) : Option Nat :=
  if plan = "free" then some 0
  else if plan = "pro" then some 1
  else if plan = "business" then some 2
  else if plan = "enterprise" then some 3
  else none

/-- `checkQRTypePlanAccess(qrType, workspacePlan)`.
`requirements[qrType] || "business"` and `workspacePlan || "free"` are
string truthiness (`jsOr`); `?? 0` is `Option.getD 0`. -/
def checkQRTypePlanAccess (qrType : String) (workspacePlan : Option String) :
    Bool × String :=
  let requiredPlan := jsOr (QR_TYPE_PLAN_REQUIREMENTS qrType) "business"
  let userLevel := (PLAN_HIERARCHY (jsOr workspacePlan "free")).getD 0
  let requiredLevel := (PLAN_HIERARCHY requiredPlan).getD 0
  (decide (userLevel ≥ requiredLevel), requiredPlan)

/-- The required-plan mapping exactly as the specification words it:
`standard→free, micro→free, compact→pro, custom→pro,
holographic→business, cube3d→business`, any unrecognized type →
`business`. -/
def requiredPlanSpec (qrType : String) : String :=
  if qrType = "standard" then "free"
  else if qrType = "micro" then "free"
  else if qrType = "compact" then "pro"
  else if qrType = "custom" then "pro"
  else if qrType = "holographic" then "business"
  else if qrType = "cube3d" then "business"
  else "business"

/-- The plan-tier order exactly as the specification words it:
`free→0, pro→1, business→2, enterprise→3`, an unrecognized or missing
plan is treated as `free` (tier 0). -/
def tierSpec (plan : Option String) : Nat :=
  match plan with
  | none => 0
  | some p =>
    if p = "pro" then 1
    else if p = "business" then 2
    else if p = "enterprise" then 3
    else 0

theorem planLevel_eq_tierSpec (s : String) :
    (PLAN_HIERARCHY s).getD 0 = tierSpec (some s) := by
  unfold PLAN_HIERARCHY tierSpec
  split_ifs <;> simp_all

theorem tierSpec_jsOr_free (p : Option String) :
    tierSpec (some (jsOr p "free")) = tierSpec p := by
  rcases p with _ | s
  · rfl
  · by_cases h : s = ""
    · subst h
      rfl
    · simp [jsOr, h]

theorem userLevel_eq_tierSpec (p : Option String) :
    (PLAN_HIERARCHY (jsOr p "free")).getD 0 = tierSpec p := by
  rcases p with _ | s
  · rfl
  · by_cases h : s = ""
    · subst h
      rfl
    · rw [show jsOr (some s) "free" = s from by simp [jsOr, h],
        planLevel_eq_tierSpec]

theorem requiredPlan_eq_spec (qrType : String) :
    jsOr (QR_TYPE_PLAN_REQUIREMENTS qrType) "business" = requiredPlanSpec qrType := by
  unfold QR_TYPE_PLAN_REQUIREMENTS requiredPlanSpec
  split_ifs <;> simp [jsOr]

/-- Outcome of the plan gate in the image route's `GET` handler. -/
inductive GateResult where
  | denied (status : Nat) (code : String) (requiredPlan : String)
  | proceed
deriving DecidableEq, Repr

/-- The licensing check of `GET` (lines 84–108): for every
non-`standard` type run `checkQRTypePlanAccess` and answer a structured
403 `forbidden` error carrying the required plan when denied — before
any module computation or rendering happens. -/
def planGate (qrType : String) (workspacePlan : Option String) : GateResult :=
  if qrType ≠ "standard" then
    let r := checkQRTypePlanAccess qrType workspacePlan
    if r.1 = false then .denied 403 "forbidden" r.2 else .proceed
  else .proceed

/-- **C3.**  `checkQRTypePlanAccess` allows exactly when the workspace
tier reaches the type's required tier under the spec's two maps; it
reports the spec's required plan; `holographic`/`free` is denied with
required plan `business` while `standard`/`free` is allowed; and the
`GET` gate turns every denial into a 403 `forbidden` error carrying the
required plan, before any rendering. -/
theorem checkQRTypePlanAccess_exact (qrType : String)
    (workspacePlan : Option String) :
    ((checkQRTypePlanAccess qrType workspacePlan).1 = true ↔
      tierSpec (some (requiredPlanSpec qrType)) ≤ tierSpec workspacePlan)
    ∧ (checkQRTypePlanAccess qrType workspacePlan).2 = requiredPlanSpec qrType
    ∧ checkQRTypePlanAccess "holographic" (some "free") = (false, "business")
    ∧ checkQRTypePlanAccess "standard" (some "free") = (true, "free")
    ∧ planGate qrType workspacePlan =
        (if qrType = "standard"
            ∨ (checkQRTypePlanAccess qrType workspacePlan).1 = true
         then GateResult.proceed
         else GateResult.denied 403 "forbidden" (requiredPlanSpec qrType)) := by
  have hsnd : (checkQRTypePlanAccess qrType workspacePlan).2
      = requiredPlanSpec qrType := by
    unfold checkQRTypePlanAccess
    exact requiredPlan_eq_spec qrType
  have hfst : (checkQRTypePlanAccess qrType workspacePlan).1 = true ↔
      tierSpec (some (requiredPlanSpec qrType)) ≤ tierSpec workspacePlan := by
    unfold checkQRTypePlanAccess
    simp only [decide_eq_true_eq, ge_iff_le, userLevel_eq_tierSpec,
      requiredPlan_eq_spec, planLevel_eq_tierSpec, tierSpec_jsOr_free]
  refine ⟨hfst, hsnd, by decide, by decide, ?_⟩
  unfold planGate
  by_cases ht : qrType = "standard"
  · simp [ht]
  · simp only [ht, ne_eq, not_false_iff, if_true]
    by_cases ha : (checkQRTypePlanAccess qrType workspacePlan).1 = true
    · simp [ha]
    · have hf : (checkQRTypePlanAccess qrType workspacePlan).1 = false :=
        Bool.not_eq_true _ ▸ Bool.eq_false_iff.mpr ha
      simp [hf, ht, ha, hsnd]

/-! ## Styled module rendering (constants.ts lines 159–303)

`renderDotModule`/`renderCornerModule` return JSX primitives; the
embedding records the geometric attributes the source sets.  The
source keys each element by the string `"x-y"`; the embedding keys by
the pair `(x, y)`, which carries the same information. -/

/-- A drawable SVG primitive as emitted by the styled renderers. -/
inductive Element where
  | circle (cx cy r : ℚ)
  | rect (x y w h : ℚ) (rx ry : Option ℚ)
  | polygon (points : List (ℚ × ℚ))
deriving DecidableEq, Repr

/-- An element together with its module key. -/
structure Keyed where
  key : Nat × Nat
  elem : Element
deriving DecidableEq, Repr

/-- `renderDotModule(x, y, style, key)` with `pad = 0.05`. -/
def renderDotModule (x y : ℚ) (style : String) (key : Nat × Nat) : Keyed :=
  if style = "circle" then
    ⟨key, .circle (x + 1/2) (y + 1/2) (45/100)⟩
  else if style = "rounded" then
    ⟨key, .rect (x + 1/20) (y + 1/20) (9/10) (9/10) (some (3/10)) (some (3/10))⟩
  else if style = "diamond" then
    ⟨key, .polygon [(x + 1/2, y + 1/20), (x + 19/20, y + 1/2),
                    (x + 1/2, y + 19/20), (x + 1/20, y + 1/2)]⟩
  else
    ⟨key, .rect x y 1 1 none none⟩

/-- `renderCornerModule(x, y, style, key)`. -/
def renderCornerModule (x y : ℚ) (style : String) (key : Nat × Nat) : Keyed :=
  if style = "circle" then
    ⟨key, .circle (x + 1/2) (y + 1/2) (1/2)⟩
  else if style = "rounded" then
    ⟨key, .rect x y 1 1 (some (1/4)) (some (1/4))⟩
  else
    ⟨key, .rect x y 1 1 none none⟩

/-- `isFinderModule(x, y)`: membership in one of the three fixed 7×7
blocks anchored at `(0,0)`, `(size−7,0)` and `(0,size−7)` — with the
JavaScript subtraction, which can go negative, hence `Int`. -/
def isFinderModule (size : Nat) (x y : Nat) : Bool :=
  [((0 : Int), (0 : Int)), ((size : Int) - 7, 0), (0, (size : Int) - 7)].any
    (fun fp => decide (fp.1 ≤ (x : Int) ∧ (x : Int) < fp.1 + 7
      ∧ fp.2 ≤ (y : Int) ∧ (y : Int) < fp.2 + 7))

/-- Inner loop of `generateStyledModules` over one row: every dark
module pushes one element, corner-styled in the finder blocks and
dot-styled elsewhere. -/
def styledRow (size margin : Nat) (dotStyle cornerStyle : String) (y : Nat) :
    List Bool → Nat → List Keyed
  | [], _ => []
  | cell :: rest, x =>
      (if cell then
        [if isFinderModule size x y then
          renderCornerModule ((x + margin : Nat) : ℚ) ((y + margin : Nat) : ℚ)
            cornerStyle (x, y)
         else
          renderDotModule ((x + margin : Nat) : ℚ) ((y + margin : Nat) : ℚ)
            dotStyle (x, y)]
       else [])
        ++ styledRow size margin dotStyle cornerStyle y rest (x + 1)

/-- Outer loop of `generateStyledModules` over the rows. -/
def styledAux (size margin : Nat) (dotStyle cornerStyle : String) :
    Modules → Nat → List Keyed
  | [], _ => []
  | row :: rows, y =>
      styledRow size margin dotStyle cornerStyle y row 0
        ++ styledAux size margin dotStyle cornerStyle rows (y + 1)

/-- `generateStyledModules(modules, margin, dotStyle, cornerStyle)`:
`size = modules.length` is captured once, as in the source. -/
def generateStyledModules (modules : Modules) (margin : Nat)
    (dotStyle cornerStyle : String) : List Keyed :=
  styledAux modules.length margin dotStyle cornerStyle modules 0

/-- The elements a styled render emits for the module at `(x, y)`. -/
def styledAt (elems : List Keyed) (x y : Nat) : List Element :=
  elems.filterMap (fun k => if k.key = (x, y) then some k.elem else none)

/-- The three 7×7 corner blocks exactly as the claim words them
(truncated subtraction; equivalent to the source's signed arithmetic). -/
def inFinderBlocks (n x y : Nat) : Prop :=
  (x < 7 ∧ y < 7) ∨ (n - 7 ≤ x ∧ x < n ∧ y < 7) ∨ (x < 7 ∧ n - 7 ≤ y ∧ y < n)

instance (n x y : Nat) : Decidable (inFinderBlocks n x y) := by
  unfold inFinderBlocks
  infer_instance

theorem isFinderModule_iff (n x y : Nat) :
    isFinderModule n x y = true ↔ inFinderBlocks n x y := by
  unfold isFinderModule inFinderBlocks
  simp only [List.any_cons, List.any_nil, Bool.or_eq_true, Bool.or_false,
    decide_eq_true_eq]
  omega

/-! ## `generateGradientDef` (constants.ts lines 308–342) -/

/-- One `stop` child of a gradient definition. -/
structure GradStop where
  offset : String
  stopColor : String
deriving DecidableEq, Repr

/-- A gradient definition: the element kind, its coordinate attributes
and its `stop` children. -/
inductive GradientDef where
  | radial (id cx cy r : String) (stops : List GradStop)
  | linear (id x1 y1 x2 y2 : String) (stops : List GradStop)
deriving DecidableEq, Repr

/-- `generateGradientDef(id, direction, startColor, endColor)`:
`radial` yields a radial gradient at 50%/50%/50%; every other direction
yields a linear gradient starting from `(0%,0%)→(100%,0%)` with the
`vertical`/`diagonal` overrides; both carry the two stops at 0% and
100%. -/
def generateGradientDef (id direction startColor endColor : String) :
    GradientDef :=
  if direction = "radial" then
    .radial id "50%" "50%" "50%"
      [⟨"0%", startColor⟩, ⟨"100%", endColor⟩]
  else
    .linear id "0%" "0%"
      (if direction = "vertical" then "0%" else "100%")
      (if direction = "vertical" then "100%"
       else if direction = "diagonal" then "100%" else "0%")
      [⟨"0%", startColor⟩, ⟨"100%", endColor⟩]

/-- **C9.**  `generateGradientDef` with direction `radial` produces a
radial gradient with exactly two stops, at offsets 0% and 100%, holding
the configured start and end colors; `horizontal`, `vertical` and
`diagonal` produce linear gradients with the fixed coordinate pairs
`(0%,0%)→(100%,0%)`, `(0%,0%)→(0%,100%)` and `(0%,0%)→(100%,100%)`
respectively, with the same two stops. -/
theorem generateGradientDef_exact (id startColor endColor : String) :
    generateGradientDef id "radial" startColor endColor =
      GradientDef.radial id "50%" "50%" "50%"
        [⟨"0%", startColor⟩, ⟨"100%", endColor⟩]
    ∧ generateGradientDef id "horizontal" startColor endColor =
      GradientDef.linear id "0%" "0%" "100%" "0%"
        [⟨"0%", startColor⟩, ⟨"100%", endColor⟩]
    ∧ generateGradientDef id "vertical" startColor endColor =
      GradientDef.linear id "0%" "0%" "0%" "100%"
        [⟨"0%", startColor⟩, ⟨"100%", endColor⟩]
    ∧ generateGradientDef id "diagonal" startColor endColor =
      GradientDef.linear id "0%" "0%" "100%" "100%"
        [⟨"0%", startColor⟩, ⟨"100%", endColor⟩] := by
  refine ⟨?_, ?_, ?_, ?_⟩ <;> simp [generateGradientDef]

theorem renderDotModule_key (x y : ℚ) (style : String) (key : Nat × Nat) :
    (renderDotModule x y style key).key = key := by
  unfold renderDotModule
  split_ifs <;> rfl

theorem renderCornerModule_key (x y : ℚ) (style : String) (key : Nat × Nat) :
    (renderCornerModule x y style key).key = key := by
  unfold renderCornerModule
  split_ifs <;> rfl

theorem styledAt_nil (x y : Nat) : styledAt [] x y = [] := rfl

theorem styledAt_cons (k : Keyed) (l : List Keyed) (x y : Nat) :
    styledAt (k :: l) x y =
      (if k.key = (x, y) then [k.elem] else []) ++ styledAt l x y := by
  simp only [styledAt, List.filterMap_cons]
  split_ifs <;> simp

/-- The element(s) emitted by one row scan for the module key `(x, y)`:
one styled element when `y` is this row, the column is in the scanned
suffix and the module is dark; nothing otherwise. -/
theorem styledRow_styledAt (size margin : Nat) (ds cs : String) (y0 : Nat) :
    ∀ (rest : List Bool) (x0 : Nat) (x y : Nat),
      styledAt (styledRow size margin ds cs y0 rest x0) x y =
        (if y = y0 ∧ x0 ≤ x ∧ rest.getD (x - x0) false = true then
          [if isFinderModule size x y = true then
            (renderCornerModule ((x + margin : Nat) : ℚ)
              ((y + margin : Nat) : ℚ) cs (x, y)).elem
           else
            (renderDotModule ((x + margin : Nat) : ℚ)
              ((y + margin : Nat) : ℚ) ds (x, y)).elem]
         else []) := by
  intro rest
  induction rest with
  | nil =>
    intro x0 x y
    simp [styledRow, styledAt, List.getD]
  | cons cell rest ih =>
    intro x0 x y
    cases cell
    · rw [show styledRow size margin ds cs y0 (false :: rest) x0
          = styledRow size margin ds cs y0 rest (x0 + 1) from by
        simp [styledRow]]
      rw [ih (x0 + 1) x y]
      by_cases hy : y = y0
      · rcases Nat.lt_trichotomy x x0 with hx | hx | hx
        · simp [hy, show ¬ x0 ≤ x by omega, show ¬ x0 + 1 ≤ x by omega]
        · subst hx
          simp [hy, Nat.sub_self, List.getD_cons_zero,
            show ¬ x + 1 ≤ x by omega]
        · have hsub : x - x0 = (x - (x0 + 1)) + 1 := by omega
          simp [hy, hsub, List.getD_cons_succ, show x0 ≤ x by omega,
            show x0 + 1 ≤ x by omega]
      · simp [hy]
    · rw [show styledRow size margin ds cs y0 (true :: rest) x0
          = (if isFinderModule size x0 y0 then
              renderCornerModule ((x0 + margin : Nat) : ℚ)
                ((y0 + margin : Nat) : ℚ) cs (x0, y0)
             else
              renderDotModule ((x0 + margin : Nat) : ℚ)
                ((y0 + margin : Nat) : ℚ) ds (x0, y0))
            :: styledRow size margin ds cs y0 rest (x0 + 1) from by
        simp [styledRow]]
      rw [styledAt_cons, ih (x0 + 1) x y]
      rw [show ((if isFinderModule size x0 y0 = true then
            renderCornerModule ((x0 + margin : Nat) : ℚ)
              ((y0 + margin : Nat) : ℚ) cs (x0, y0)
           else
            renderDotModule ((x0 + margin : Nat) : ℚ)
              ((y0 + margin : Nat) : ℚ) ds (x0, y0)).key) = (x0, y0) from by
        split_ifs <;> simp [renderCornerModule_key, renderDotModule_key]]
      by_cases hk : ((x0, y0) : Nat × Nat) = (x, y)
      · cases hk
        rw [if_pos rfl]
        simp [show ¬ x0 + 1 ≤ x0 by omega, Nat.sub_self, List.getD_cons_zero,
          apply_ite Keyed.elem]
      · rw [if_neg hk, List.nil_append]
        by_cases hy : y = y0
        · subst hy
          rcases Nat.lt_trichotomy x x0 with hx | hx | hx
          · simp [show ¬ x0 ≤ x by omega, show ¬ x0 + 1 ≤ x by omega]
          · exact absurd (by rw [hx]) hk
          · have hsub : x - x0 = (x - (x0 + 1)) + 1 := by omega
            simp [hsub, List.getD_cons_succ, show x0 ≤ x by omega,
              show x0 + 1 ≤ x by omega]
        · simp [hy]

theorem styledAt_append (l1 l2 : List Keyed) (x y : Nat) :
    styledAt (l1 ++ l2) x y = styledAt l1 x y ++ styledAt l2 x y := by
  simp [styledAt, List.filterMap_append]

/-- The element(s) emitted for key `(x, y)` by scanning the rows `rows`
whose first row has absolute index `y0`. -/
theorem styledAux_styledAt (size margin : Nat) (ds cs : String) :
    ∀ (rows : Modules) (y0 : Nat) (x y : Nat),
      styledAt (styledAux size margin ds cs rows y0) x y =
        (if y0 ≤ y ∧ ((rows.getD (y - y0) []).getD x false = true) then
          [if isFinderModule size x y = true then
            (renderCornerModule ((x + margin : Nat) : ℚ)
              ((y + margin : Nat) : ℚ) cs (x, y)).elem
           else
            (renderDotModule ((x + margin : Nat) : ℚ)
              ((y + margin : Nat) : ℚ) ds (x, y)).elem]
         else []) := by
  intro rows
  induction rows with
  | nil =>
    intro y0 x y
    simp [styledAux, styledAt, List.getD]
  | cons row rows ih =>
    intro y0 x y
    rw [show styledAux size margin ds cs (row :: rows) y0
        = styledRow size margin ds cs y0 row 0
          ++ styledAux size margin ds cs rows (y0 + 1) from rfl]
    rw [styledAt_append, styledRow_styledAt size margin ds cs y0 row 0 x y,
      ih (y0 + 1) x y]
    by_cases hy : y = y0
    · subst hy
      simp [show ¬ y + 1 ≤ y by omega, Nat.sub_self, Nat.sub_zero,
        List.getD_cons_zero]
    · by_cases hge : y0 + 1 ≤ y
      · have hsub : y - y0 = (y - (y0 + 1)) + 1 := by omega
        simp [hy, hge, hsub, List.getD_cons_succ, show y0 ≤ y by omega]
      · simp [hy, hge, show ¬ y0 ≤ y by omega]

/-- Full characterization of `generateStyledModules`: the module at
`(x, y)` gets exactly one element when dark — corner-styled inside the
finder blocks, dot-styled outside — and none when light. -/
theorem generateStyledModules_styledAt (modules : Modules) (margin : Nat)
    (ds cs : String) (x y : Nat) :
    styledAt (generateStyledModules modules margin ds cs) x y =
      (if (modules.getD y []).getD x false = true then
        [if isFinderModule modules.length x y = true then
          (renderCornerModule ((x + margin : Nat) : ℚ)
            ((y + margin : Nat) : ℚ) cs (x, y)).elem
         else
          (renderDotModule ((x + margin : Nat) : ℚ)
            ((y + margin : Nat) : ℚ) ds (x, y)).elem]
       else []) := by
  have h := styledAux_styledAt modules.length margin ds cs modules 0 x y
  simpa using h

/-- **C7.**  In styled rendering over a matrix of side `N`, a dark
module at `(x, y)` is rendered with the corner (finder) shape iff it
lies in one of the three 7×7 blocks at the top-left, top-right and
bottom-left corners, and with the dot shape otherwise; for `N ≥ 21` the
three corner modules are classified finder, and for `N > 14` the center
module is not. -/
theorem generateStyledModules_finder_classification (modules : Modules)
    (margin : Nat) (ds cs : String) (x y : Nat) :
    (styledAt (generateStyledModules modules margin ds cs) x y =
      (if (modules.getD y []).getD x false = true then
        [if inFinderBlocks modules.length x y then
          (renderCornerModule ((x + margin : Nat) : ℚ)
            ((y + margin : Nat) : ℚ) cs (x, y)).elem
         else
          (renderDotModule ((x + margin : Nat) : ℚ)
            ((y + margin : Nat) : ℚ) ds (x, y)).elem]
       else []))
    ∧ (21 ≤ modules.length →
        inFinderBlocks modules.length 0 0
        ∧ inFinderBlocks modules.length (modules.length - 1) 0
        ∧ inFinderBlocks modules.length 0 (modules.length - 1))
    ∧ (14 < modules.length →
        ¬ inFinderBlocks modules.length
            (modules.length / 2) (modules.length / 2)) := by
  refine ⟨?_, ?_, ?_⟩
  · rw [generateStyledModules_styledAt]
    simp only [isFinderModule_iff]
  · intro h
    unfold inFinderBlocks
    omega
  · intro h
    unfold inFinderBlocks
    omega

/-- An all-dark 21×21 matrix for the C7 witness. -/
def fullMatrix21 : Modules := List.replicate 21 (List.replicate 21 true)

/-- Witness for `generateStyledModules_finder_classification` at a
concrete 21×21 matrix: both side conditions are discharged by
evaluation. -/
theorem generateStyledModules_finder_classification_witness :
    (inFinderBlocks fullMatrix21.length 0 0
      ∧ inFinderBlocks fullMatrix21.length (fullMatrix21.length - 1) 0
      ∧ inFinderBlocks fullMatrix21.length 0 (fullMatrix21.length - 1))
    ∧ ¬ inFinderBlocks fullMatrix21.length
        (fullMatrix21.length / 2) (fullMatrix21.length / 2) :=
  ⟨(generateStyledModules_finder_classification fullMatrix21 0 "square"
      "square" 0 0).2.1 (by decide),
   (generateStyledModules_finder_classification fullMatrix21 0 "square"
      "square" 0 0).2.2 (by decide)⟩

/-! ## `QRCodeSVG` (constants.ts lines 405–554)

The component is modelled as a pure function from its props — and the
external `qrcodegen.QrCode.encodeText(...).getModules()` encoder, taken
as a parameter because `codegen.ts` is an opaque vendored dependency —
to a record of the document it returns: size and viewBox, the full
background rectangle's fill, either one foreground path (path mode) or
styled elements plus an optional gradient definition (styled mode), and
the optional composited logo element.  The source's local `const`s
become the helper definitions below. -/

/-- `QRStyleSettings` of `lib/qr/types.ts`: every field optional. -/
structure QRStyleSettings where
  dotStyle : Option String
  cornerStyle : Option String
  gradientDirection : Option String
  gradientStartColor : Option String
  gradientEndColor : Option String
deriving DecidableEq, Repr

/-- The props of `QRCodeSVG` (defaults already applied). -/
structure QRProps where
  value : String
  size : ℚ
  level : Level
  bgColor : String
  fgColor : String
  margin : Nat
  isOGContext : Bool
  imageSettings : Option ImageSettings
  qrType : String
  qrStyle : Option QRStyleSettings
deriving DecidableEq, Repr

/-- The composited logo: a pixel-positioned `<img>` in OG context, a
document-relative `<image>` otherwise. -/
structure ImageOut where
  src : String
  og : Bool
  left : ℚ
  top : ℚ
  width : ℚ
  height : ℚ
deriving DecidableEq, Repr

/-- Foreground of the returned document. -/
inductive SVGContent where
  | pathMode (fgPath : List PathOp) (fill : String)
  | styledMode (gradient : Option GradientDef) (elements : List Keyed)
      (fill : String)
deriving DecidableEq, Repr

/-- The document returned by `QRCodeSVG`: `width`/`height` (the `size`
prop), the viewBox side `numCells`, the background fill covering
`M0,0 h numCells v numCells H0z`, the foreground and the optional
logo. -/
structure SVGOutput where
  width : ℚ
  height : ℚ
  viewBoxSide : Nat
  bgColor : String
  content : SVGContent
  image : Option ImageOut
deriving DecidableEq, Repr

/-- `convertImageSettingsToPixels` (constants.ts lines 384–403):
`(imgWidth, imgHeight, imgLeft, imgTop)`. -/
def convertImageSettingsToPixels (cis : CalculatedImageSettings) (size : ℚ)
    (numCells : Nat) (margin : Nat) : ℚ × ℚ × ℚ × ℚ :=
  let pixelRatio := size / (numCells : ℚ)
  (cis.w * pixelRatio, cis.h * pixelRatio,
    (cis.x + (margin : ℚ)) * pixelRatio, (cis.y + (margin : ℚ)) * pixelRatio)

/-- `effectiveMargin`: `micro` clamps the margin to at most 1. -/
def effectiveMarginOf (qrType : String) (margin : Nat) : Nat :=
  if qrType = "micro" then min margin 1 else margin

/-- The `effectiveLevel` local of `QRCodeSVG` applied to the props. -/
def effLevelOf (p : QRProps) : Level :=
  effectiveLevel p.isOGContext p.imageSettings p.qrType p.level

/-- The matrix returned by the encoder before any excavation. -/
def cellsPre (encode : String → Level → Modules) (p : QRProps) : Modules :=
  encode p.value (effLevelOf p)

/-- The `calculatedImageSettings` local of `QRCodeSVG`. -/
def calcOf (encode : String → Level → Modules) (p : QRProps) :
    Option CalculatedImageSettings :=
  getImageSettings (cellsPre encode p) p.size
    (effectiveMarginOf p.qrType p.margin) p.imageSettings

/-- The matrix actually rendered: excavated when the overlay requests
it (inside the source's `imageSettings != null && calculated != null`
guard). -/
def cellsOf (encode : String → Level → Modules) (p : QRProps) : Modules :=
  match p.imageSettings, calcOf encode p with
  | some _, some c =>
    match c.excavation with
    | some e => excavateModules (cellsPre encode p) e
    | none => cellsPre encode p
  | _, _ => cellsPre encode p

/-- `numCells = cells.length + effectiveMargin * 2` (computed before
excavation, which preserves the length anyway). -/
def numCellsOf (encode : String → Level → Modules) (p : QRProps) : Nat :=
  (cellsPre encode p).length + effectiveMarginOf p.qrType p.margin * 2

/-- The `image` JSX local of `QRCodeSVG`. -/
def imageOf (encode : String → Level → Modules) (p : QRProps) :
    Option ImageOut :=
  match p.imageSettings, calcOf encode p with
  | some s, some c =>
    if p.isOGContext then
      some { src := s.src, og := true,
             left := (convertImageSettingsToPixels c p.size
               (numCellsOf encode p)
               (effectiveMarginOf p.qrType p.margin)).2.2.1,
             top := (convertImageSettingsToPixels c p.size
               (numCellsOf encode p)
               (effectiveMarginOf p.qrType p.margin)).2.2.2,
             width := (convertImageSettingsToPixels c p.size
               (numCellsOf encode p)
               (effectiveMarginOf p.qrType p.margin)).1,
             height := (convertImageSettingsToPixels c p.size
               (numCellsOf encode p)
               (effectiveMarginOf p.qrType p.margin)).2.1 }
    else
      some { src := s.src, og := false,
             left := c.x + (effectiveMarginOf p.qrType p.margin : ℚ),
             top := c.y + (effectiveMarginOf p.qrType p.margin : ℚ),
             width := c.w, height := c.h }
  | _, _ => none

/-- `qrStyle?.dotStyle || (qrType === "holographic" ? "rounded" : "square")`. -/
def resolvedDotStyle (qrType : String) (qrStyle : Option QRStyleSettings) :
    String :=
  jsOr (qrStyle.bind (fun s => s.dotStyle))
    (if qrType = "holographic" then "rounded" else "square")

/-- `qrStyle?.cornerStyle || "square"`. -/
def resolvedCornerStyle (qrStyle : Option QRStyleSettings) : String :=
  jsOr (qrStyle.bind (fun s => s.cornerStyle)) "square"

/-- The gradient definition rendered when `useGradient` holds. -/
def gradientOf (p : QRProps) : Option GradientDef :=
  if p.qrType = "holographic" ∧ p.qrStyle.isSome then
    some (generateGradientDef "qr-holo-gradient"
      (jsOr (p.qrStyle.bind (fun s => s.gradientDirection)) "horizontal")
      (jsOr (p.qrStyle.bind (fun s => s.gradientStartColor)) "#8A2BE2")
      (jsOr (p.qrStyle.bind (fun s => s.gradientEndColor)) "#00CED1"))
  else none

/-- `QRCodeSVG(props)`: styled mode iff `qrType ∈ {custom, holographic}`
and a style-settings record is present; path mode otherwise. -/
def QRCodeSVG (encode : String → Level → Modules) (p : QRProps) : SVGOutput :=
  if (p.qrType = "custom" ∨ p.qrType = "holographic") ∧ p.qrStyle.isSome then
    { width := p.size, height := p.size,
      viewBoxSide := numCellsOf encode p, bgColor := p.bgColor,
      content := SVGContent.styledMode (gradientOf p)
        (generateStyledModules (cellsOf encode p)
          (effectiveMarginOf p.qrType p.margin)
          (resolvedDotStyle p.qrType p.qrStyle)
          (resolvedCornerStyle p.qrStyle))
        (if p.qrType = "holographic" ∧ p.qrStyle.isSome then
          "url(#qr-holo-gradient)"
         else p.fgColor),
      image := imageOf encode p }
  else
    { width := p.size, height := p.size,
      viewBoxSide := numCellsOf encode p, bgColor := p.bgColor,
      content := SVGContent.pathMode
        (generatePathOps (cellsOf encode p)
          (effectiveMarginOf p.qrType p.margin))
        p.fgColor,
      image := imageOf encode p }

/-- **C8.**  For a type outside `{custom, holographic}`, supplied style
options are ignored — the output is identical to the output without
them — and the render falls back to path mode (a single `generatePath`
foreground path) while still producing a complete document; likewise
when no style-settings record is present.  (The embedding is a total
function: no input raises an error.) -/
theorem QRCodeSVG_style_fallback (encode : String → Level → Modules)
    (p : QRProps) (s : QRStyleSettings) :
    (¬ (p.qrType = "custom" ∨ p.qrType = "holographic") →
      QRCodeSVG encode { p with qrStyle := some s }
        = QRCodeSVG encode { p with qrStyle := none })
    ∧ ((¬ (p.qrType = "custom" ∨ p.qrType = "holographic") ∨ p.qrStyle = none) →
      (QRCodeSVG encode p).content
        = SVGContent.pathMode
            (generatePathOps (cellsOf encode p)
              (effectiveMarginOf p.qrType p.margin)) p.fgColor) := by
  constructor
  · intro h
    have hfalse1 : ¬ ((({ p with qrStyle := some s } : QRProps).qrType = "custom"
          ∨ ({ p with qrStyle := some s } : QRProps).qrType = "holographic")
        ∧ ({ p with qrStyle := some s } : QRProps).qrStyle.isSome = true) :=
      fun hc => h hc.1
    have hfalse2 : ¬ ((({ p with qrStyle := none } : QRProps).qrType = "custom"
          ∨ ({ p with qrStyle := none } : QRProps).qrType = "holographic")
        ∧ ({ p with qrStyle := none } : QRProps).qrStyle.isSome = true) :=
      fun hc => h hc.1
    unfold QRCodeSVG
    rw [if_neg hfalse1, if_neg hfalse2]
    rfl
  · intro h
    unfold QRCodeSVG
    rw [if_neg]
    intro hc
    rcases h with h | h
    · exact h hc.1
    · exact absurd hc.2 (by simp [h])

/-- A one-module encoder used by the witnesses below. -/
def encodeOne : String → Level → Modules := fun _ _ => [[true]]

/-- Standard-type props carrying no style settings. -/
def stdProps : QRProps :=
  { value := "v", size := 128, level := Level.L, bgColor := "#FFFFFF",
    fgColor := "#000000", margin := 2, isOGContext := false,
    imageSettings := none, qrType := "standard", qrStyle := none }

/-- A fully-populated style-settings record. -/
def styleAll : QRStyleSettings :=
  ⟨some "circle", some "rounded", some "radial", some "#111111",
    some "#222222"⟩

/-- Witness for `QRCodeSVG_style_fallback`: a `standard` render with
style options supplied equals the one without, and uses path mode. -/
theorem QRCodeSVG_style_fallback_witness :
    QRCodeSVG encodeOne { stdProps with qrStyle := some styleAll }
      = QRCodeSVG encodeOne { stdProps with qrStyle := none }
    ∧ (QRCodeSVG encodeOne stdProps).content
      = SVGContent.pathMode
          (generatePathOps (cellsOf encodeOne stdProps)
            (effectiveMarginOf stdProps.qrType stdProps.margin))
          stdProps.fgColor :=
  ⟨(QRCodeSVG_style_fallback encodeOne stdProps styleAll).1 (by decide),
   (QRCodeSVG_style_fallback encodeOne stdProps styleAll).2 (Or.inr rfl)⟩

/-- **C10.**  When a style-settings record is present but omits
`dotStyle`, `QRCodeSVG` resolves the dot style at consumption time to
`rounded` for `holographic` and to `square` for `custom` — the default
is type-dependent — and renders every dark non-finder module with that
resolved dot style. -/
theorem QRCodeSVG_dotStyle_default (encode : String → Level → Modules)
    (p : QRProps) (s : QRStyleSettings) (x y : Nat)
    (hs : p.qrStyle = some s) (hd : s.dotStyle = none) :
    (p.qrType = "holographic" →
      resolvedDotStyle p.qrType p.qrStyle = "rounded"
      ∧ (QRCodeSVG encode p).content =
          SVGContent.styledMode (gradientOf p)
            (generateStyledModules (cellsOf encode p)
              (effectiveMarginOf p.qrType p.margin) "rounded"
              (resolvedCornerStyle p.qrStyle)) "url(#qr-holo-gradient)"
      ∧ (((cellsOf encode p).getD y []).getD x false = true →
          ¬ inFinderBlocks (cellsOf encode p).length x y →
          styledAt (generateStyledModules (cellsOf encode p)
              (effectiveMarginOf p.qrType p.margin) "rounded"
              (resolvedCornerStyle p.qrStyle)) x y =
            [(renderDotModule
                ((x + effectiveMarginOf p.qrType p.margin : Nat) : ℚ)
                ((y + effectiveMarginOf p.qrType p.margin : Nat) : ℚ)
                "rounded" (x, y)).elem]))
    ∧ (p.qrType = "custom" →
      resolvedDotStyle p.qrType p.qrStyle = "square"
      ∧ (QRCodeSVG encode p).content =
          SVGContent.styledMode none
            (generateStyledModules (cellsOf encode p)
              (effectiveMarginOf p.qrType p.margin) "square"
              (resolvedCornerStyle p.qrStyle)) p.fgColor
      ∧ (((cellsOf encode p).getD y []).getD x false = true →
          ¬ inFinderBlocks (cellsOf encode p).length x y →
          styledAt (generateStyledModules (cellsOf encode p)
              (effectiveMarginOf p.qrType p.margin) "square"
              (resolvedCornerStyle p.qrStyle)) x y =
            [(renderDotModule
                ((x + effectiveMarginOf p.qrType p.margin : Nat) : ℚ)
                ((y + effectiveMarginOf p.qrType p.margin : Nat) : ℚ)
                "square" (x, y)).elem])) := by
  constructor
  · intro hqt
    have hrds : resolvedDotStyle p.qrType p.qrStyle = "rounded" := by
      simp [resolvedDotStyle, hs, hd, hqt, jsOr]
    refine ⟨hrds, ?_, ?_⟩
    · have houter : (p.qrType = "custom" ∨ p.qrType = "holographic")
          ∧ p.qrStyle.isSome = true := ⟨Or.inr hqt, by simp [hs]⟩
      have hinner : p.qrType = "holographic" ∧ p.qrStyle.isSome = true :=
        ⟨hqt, by simp [hs]⟩
      unfold QRCodeSVG
      rw [if_pos houter]
      dsimp only
      rw [hrds, if_pos hinner]
    · intro hdark hnf
      rw [generateStyledModules_styledAt, if_pos hdark,
        if_neg (fun hf => hnf ((isFinderModule_iff _ _ _).mp hf))]
  · intro hqt
    have hrds : resolvedDotStyle p.qrType p.qrStyle = "square" := by
      simp [resolvedDotStyle, hs, hd, hqt, jsOr]
    have hninner : ¬ (p.qrType = "holographic" ∧ p.qrStyle.isSome = true) := by
      intro hc
      rw [hqt] at hc
      exact absurd hc.1 (by decide)
    refine ⟨hrds, ?_, ?_⟩
    · have houter : (p.qrType = "custom" ∨ p.qrType = "holographic")
          ∧ p.qrStyle.isSome = true := ⟨Or.inl hqt, by simp [hs]⟩
      unfold QRCodeSVG gradientOf
      rw [if_pos houter]
      dsimp only
      rw [hrds, if_neg hninner, if_neg hninner]
    · intro hdark hnf
      rw [generateStyledModules_styledAt, if_pos hdark,
        if_neg (fun hf => hnf ((isFinderModule_iff _ _ _).mp hf))]

/-- An 8×8 matrix whose only dark module `(7,7)` is outside every finder
block. -/
def m8 : Modules :=
  List.replicate 7 (List.replicate 8 false)
    ++ [List.replicate 7 false ++ [true]]

/-- Encoder returning `m8`, for the C10 witness. -/
def encodeM8 : String → Level → Modules := fun _ _ => m8

/-- A style-settings record with every field omitted. -/
def styleNone : QRStyleSettings := ⟨none, none, none, none, none⟩

/-- Holographic props whose style record omits `dotStyle`. -/
def holoProps : QRProps :=
  { value := "v", size := 128, level := Level.L, bgColor := "#FFFFFF",
    fgColor := "#000000", margin := 2, isOGContext := false,
    imageSettings := none, qrType := "holographic",
    qrStyle := some styleNone }

/-- Custom-type props whose style record omits `dotStyle`. -/
def customProps : QRProps :=
  { value := "v", size := 128, level := Level.L, bgColor := "#FFFFFF",
    fgColor := "#000000", margin := 2, isOGContext := false,
    imageSettings := none, qrType := "custom",
    qrStyle := some styleNone }

/-- Witness for `QRCodeSVG_dotStyle_default`: concrete holographic and
custom renders with `dotStyle` omitted, evaluated at the dark non-finder
module `(7,7)` of `m8`. -/
theorem QRCodeSVG_dotStyle_default_witness :
    resolvedDotStyle holoProps.qrType holoProps.qrStyle = "rounded"
    ∧ styledAt (generateStyledModules (cellsOf encodeM8 holoProps)
        (effectiveMarginOf holoProps.qrType holoProps.margin) "rounded"
        (resolvedCornerStyle holoProps.qrStyle)) 7 7 =
      [(renderDotModule
          ((7 + effectiveMarginOf holoProps.qrType holoProps.margin : Nat) : ℚ)
          ((7 + effectiveMarginOf holoProps.qrType holoProps.margin : Nat) : ℚ)
          "rounded" (7, 7)).elem]
    ∧ resolvedDotStyle customProps.qrType customProps.qrStyle = "square" := by
  have h1 := QRCodeSVG_dotStyle_default encodeM8 holoProps styleNone 7 7 rfl rfl
  have h2 := QRCodeSVG_dotStyle_default encodeM8 customProps styleNone 7 7 rfl rfl
  exact ⟨(h1.1 rfl).1, (h1.1 rfl).2.2 (by decide) (by decide), (h2.2 rfl).1⟩

/-! ## The image route `GET` handler (logo resolution and overrides)

Network lookups (`getShortLinkViaEdge`, `getWorkspaceViaEdge`,
`getDomainViaEdge`) and the `DUB_QR_LOGO` constant of `@dub/utils` are
external; the handler is modelled as a pure function of the parsed
query parameters together with the results those lookups would
return. -/

/-- The default Dub logo URL exported by `@dub/utils` (opaque external
constant; only its non-emptiness matters here). -/
def DUB_QR_LOGO : String := "https://assets.dub.co/logo.png"

/-- Parsed query parameters (zod defaults applied) together with the
results of the external lookups for the request's URL. -/
structure GetInputs where
  url : String
  logo : Option String
  size : ℚ
  level : Level
  fgColor : String
  bgColor : String
  margin : Nat
  hideLogo : Bool
  qrType : String
  dotStyle : String
  cornerStyle : String
  gradientDirection : String
  gradientStartColor : String
  gradientEndColor : String
  shortLinkExists : Bool
  workspacePlan : Option String
  isDubDomain : Bool
  workspaceLogo : Option String
  domainLogo : Option String
deriving DecidableEq, Repr

/-- `shortLink ? (workspace?.plan || null) : null`. -/
def lookupWorkspacePlan (i : GetInputs) : Option String :=
  if i.shortLinkExists = true then
    (if truthyS i.workspacePlan = true then i.workspacePlan else none)
  else none

/-- `getQRCodeLogo` (handler lines 169–216) as a pure function of the
lookup results.  The order of the guards matters: a missing short link
or a free/missing workspace plan forces the Dub logo *before*
`hideLogo` is consulted. -/
def getQRCodeLogo (i : GetInputs) (hideLogo : Bool)
    (workspacePlan : Option String) : Option String :=
  if i.shortLinkExists = false then some DUB_QR_LOGO
  else if workspacePlan = some "free" ∨ truthyS workspacePlan = false then
    some DUB_QR_LOGO
  else if hideLogo = true then none
  else if truthyS i.logo = true then i.logo
  else if i.isDubDomain = true ∧ truthyS i.workspaceLogo = false then
    some DUB_QR_LOGO
  else if truthyS i.domainLogo = true then i.domainLogo
  else if truthyS i.workspaceLogo = true then i.workspaceLogo
  else some DUB_QR_LOGO

/-- `micro`/`compact` force `hideLogo` on. -/
def getEffectiveHideLogo (qrType : String) (hideLogo : Bool) : Bool :=
  if qrType = "micro" ∨ qrType = "compact" then true else hideLogo

/-- The render path of `GET` after parsing and rate limiting: plan gate
first, then the micro/compact overrides, the logo resolution, and the
`QRCodeSVG` call with `isOGContext = true` and an excavating logo
overlay of side `size/4` whenever a logo was resolved. -/
def getHandler (encode : String → Level → Modules) (i : GetInputs) :
    Except (Nat × String × String) SVGOutput :=
  match planGate i.qrType (lookupWorkspacePlan i) with
  | .denied st code rp => .error (st, code, rp)
  | .proceed =>
    .ok (QRCodeSVG encode
      { value := i.url, size := i.size, level := i.level,
        bgColor := i.bgColor, fgColor := i.fgColor,
        margin := effectiveMarginOf i.qrType i.margin, isOGContext := true,
        imageSettings :=
          match getQRCodeLogo i (getEffectiveHideLogo i.qrType i.hideLogo)
              (lookupWorkspacePlan i) with
          | some l => some ⟨l, i.size / 4, i.size / 4, true, none, none⟩
          | none => none,
        qrType := i.qrType,
        qrStyle :=
          if i.qrType = "custom" ∨ i.qrType = "holographic" then
            some ⟨some i.dotStyle, some i.cornerStyle,
              (if i.qrType = "holographic" then some i.gradientDirection
               else none),
              (if i.qrType = "holographic" then some i.gradientStartColor
               else none),
              (if i.qrType = "holographic" then some i.gradientEndColor
               else none)⟩
          else none })

theorem QRCodeSVG_image (encode : String → Level → Modules) (p : QRProps) :
    (QRCodeSVG encode p).image = imageOf encode p := by
  unfold QRCodeSVG
  split_ifs <;> rfl

theorem planGate_micro (p : Option String) :
    planGate "micro" p = GateResult.proceed := by
  unfold planGate
  rw [if_pos (by decide)]
  have hall : (checkQRTypePlanAccess "micro" p).1 = true := by
    unfold checkQRTypePlanAccess
    simp [QR_TYPE_PLAN_REQUIREMENTS, jsOr, PLAN_HIERARCHY]
  rw [if_neg (by simp [hall])]

/-- Micro-type props that do supply an overlay image. -/
def microProps : QRProps :=
  { value := "https://dub.co/x", size := 100, level := Level.L,
    bgColor := "#FFFFFF", fgColor := "#000000", margin := 2,
    isOGContext := false,
    imageSettings := some ⟨"logo.png", 25, 25, false, none, none⟩,
    qrType := "micro", qrStyle := none }

/-- A micro-type request for a URL that is not a Dub short link. -/
def microInputs : GetInputs :=
  { url := "https://example.com/x", logo := none, size := 100,
    level := Level.L, fgColor := "#000000", bgColor := "#FFFFFF",
    margin := 2, hideLogo := false, qrType := "micro",
    dotStyle := "square", cornerStyle := "square",
    gradientDirection := "horizontal", gradientStartColor := "#8A2BE2",
    gradientEndColor := "#00CED1", shortLinkExists := false,
    workspacePlan := none, isDubDomain := false, workspaceLogo := none,
    domainLogo := none }

/-- **C6, counterexample.**  A `micro` render does composite a logo:
`QRCodeSVG` itself composites any supplied overlay regardless of the
type, and the API handler — although it forces `hideLogo` — still
resolves the default Dub logo (here because the URL is not a Dub short
link) and composites it.  This falsifies "no logo image is composited
into the output even when imageSettings is supplied". -/
theorem micro_logo_counterexample :
    microProps.qrType = "micro"
    ∧ microProps.imageSettings.isSome = true
    ∧ (QRCodeSVG encodeOne microProps).image.isSome = true
    ∧ microInputs.qrType = "micro"
    ∧ ((getHandler encodeOne microInputs).toOption.map
        (fun o => o.image.isSome)) = some true :=
  ⟨rfl, rfl, rfl, rfl, rfl⟩

/-- **C6 (amended).**  For `qrType = "micro"` the effective margin is
`min(margin, 1)` — 1 when 2 is requested — and the handler forces
`hideLogo` on, so when the short link exists and the workspace plan is
a recognized non-free one (where `hideLogo` is honored) the rendered
output composites no logo at all.  (Logo compositing is not disabled
wholesale: the branding rules still composite the default Dub logo for
non-Dub links and free/missing plans — see the counterexample.) -/
theorem micro_margin_logo_behavior (encode : String → Level → Modules)
    (i : GetInputs) (out : SVGOutput) :
    (∀ margin : Nat, effectiveMarginOf "micro" margin = min margin 1)
    ∧ effectiveMarginOf "micro" 2 = 1
    ∧ (i.qrType = "micro" → getEffectiveHideLogo i.qrType i.hideLogo = true)
    ∧ (i.qrType = "micro" → i.shortLinkExists = true →
        truthyS i.workspacePlan = true → i.workspacePlan ≠ some "free" →
        getHandler encode i = .ok out → out.image = none) := by
  refine ⟨fun margin => rfl, rfl, ?_, ?_⟩
  · intro hqt
    unfold getEffectiveHideLogo
    rw [if_pos (Or.inl hqt)]
  · intro hqt hsl htr hfree hok
    have hlp : lookupWorkspacePlan i = i.workspacePlan := by
      unfold lookupWorkspacePlan
      rw [if_pos hsl, if_pos htr]
    have hhide : getEffectiveHideLogo "micro" i.hideLogo = true := by
      unfold getEffectiveHideLogo
      rw [if_pos (Or.inl rfl)]
    have hlogo : getQRCodeLogo i true i.workspacePlan = none := by
      unfold getQRCodeLogo
      rw [if_neg (by simp [hsl])]
      rw [if_neg ?hcond, if_pos rfl]
      case hcond =>
        intro hc
        rcases hc with hc | hc
        · exact hfree hc
        · rw [htr] at hc
          cases hc
    unfold getHandler at hok
    rw [hqt, hlp, planGate_micro, hhide, hlogo] at hok
    dsimp only at hok
    injection hok with h
    rw [← h, QRCodeSVG_image]
    rfl

/-- A micro-type request for an existing Dub short link owned by a
pro-plan workspace. -/
def microPaidInputs : GetInputs :=
  { url := "https://dub.co/x", logo := none, size := 100,
    level := Level.L, fgColor := "#000000", bgColor := "#FFFFFF",
    margin := 2, hideLogo := false, qrType := "micro",
    dotStyle := "square", cornerStyle := "square",
    gradientDirection := "horizontal", gradientStartColor := "#8A2BE2",
    gradientEndColor := "#00CED1", shortLinkExists := true,
    workspacePlan := some "pro", isDubDomain := true,
    workspaceLogo := none, domainLogo := none }

/-- The output the handler produces for `microPaidInputs`. -/
def microPaidOut : SVGOutput :=
  ((getHandler encodeOne microPaidInputs).toOption).getD
    ⟨0, 0, 0, "", SVGContent.pathMode [] "", none⟩

/-- Witness for `micro_margin_logo_behavior`: all hypotheses discharged
at the concrete pro-plan micro request. -/
theorem micro_margin_logo_behavior_witness :
    effectiveMarginOf "micro" 2 = 1
    ∧ getEffectiveHideLogo microPaidInputs.qrType microPaidInputs.hideLogo
        = true
    ∧ microPaidOut.image = none := by
  have h := micro_margin_logo_behavior encodeOne microPaidInputs microPaidOut
  exact ⟨h.2.1, h.2.2.1 rfl,
    h.2.2.2 rfl rfl (by decide) (by decide) rfl⟩

end QR
